import Mathlib

/-!
Verification of the Madokami site-adapter (src/lib.rs).

Rust strings (`String` / `&str`) are modeled as their UTF-8 byte sequences,
`List Nat` with entries < 256.  Pure string utilities of the adapter are
translated byte-for-byte; scraping entry points are translated as functions of
the data the CSS selectors extract from the fetched document (the HTML/selector
engine and the HTTP transport are host libraries, outside the adapter).
Fallible steps (Rust byte-slicing of `&str`, which panics off a character
boundary) are modeled with `Option`, `none` meaning a panic.
-/

namespace Madokami

/-- UTF-8 encoding of a single Unicode scalar value, as produced by Rust's
`String::push`.  `percent_decode` only ever pushes code points below 256. -/
def pushChar (c : Nat) : List Nat :=
  if c < 128 then [c]
  else if c < 2048 then [192 + c / 64, 128 + c % 64]
  else if c < 65536 then [224 + c / 4096, 128 + c / 64 % 64, 128 + c % 64]
  else [240 + c / 262144, 128 + c / 4096 % 64, 128 + c / 64 % 64, 128 + c % 64]

/-- `hex` from lib.rs: value of one ASCII hex digit. -/
def hex (c : Nat) : Option Nat :=
  if 48 ≤ c ∧ c ≤ 57 then some (c - 48)
  else if 97 ≤ c ∧ c ≤ 102 then some (10 + c - 97)
  else if 65 ≤ c ∧ c ≤ 70 then some (10 + c - 65)
  else none

/-- `percent_decode` from lib.rs: decodes `%XX` (two hex digits) and maps `+`
(byte 43) to space (32); a `%` (byte 37) not followed by two hex digits inside
the string is passed through literally.  Each consumed byte `b` is pushed with
`b as char`, i.e. as the code point `b`. -/
def percent_decode : List Nat → List Nat
  | [] => []
  | 37 :: a :: b :: rest2 =>
    match hex a, hex b with
    | some hi, some lo => pushChar (16 * hi + lo) ++ percent_decode rest2
    | _, _ => 37 :: percent_decode (a :: b :: rest2)
  | c :: rest =>
    if c = 43 then 32 :: percent_decode rest
    else pushChar c ++ percent_decode rest

/-- ASCII-alphanumeric test on a byte, as `(b as char).is_ascii_alphanumeric()`. -/
def isAsciiAlphanum (b : Nat) : Bool :=
  decide ((48 ≤ b ∧ b ≤ 57) ∨ (65 ≤ b ∧ b ≤ 90) ∨ (97 ≤ b ∧ b ≤ 122))

/-- Bytes left unescaped by `encode_component`: alphanumerics and `- _ . ~`. -/
def isUnreservedByte (b : Nat) : Bool :=
  isAsciiAlphanum b || decide (b = 45) || decide (b = 95) ||
    decide (b = 46) || decide (b = 126)

/-- Upper-case hex digit of a value below 16, as printed by `{:02X}`. -/
def hexDigitUpper (n : Nat) : Nat :=
  if n < 10 then 48 + n else 55 + n

/-- Encoding of a single byte by `encode_component`. -/
def encodeByte (b : Nat) : List Nat :=
  if isUnreservedByte b then [b]
  else [37, hexDigitUpper (b / 16 % 16), hexDigitUpper (b % 16)]

/-- `encode_component` from lib.rs: strict query-component encoder over the
bytes of the input. -/
def encode_component : List Nat → List Nat
  | [] => []
  | b :: rest => encodeByte b ++ encode_component rest

end Madokami

namespace Madokami

lemma isUnreservedByte_props {b : Nat} (h : isUnreservedByte b = true) :
    b ≠ 37 ∧ b ≠ 43 ∧ b < 128 := by
  simp only [isUnreservedByte, isAsciiAlphanum, Bool.or_eq_true, decide_eq_true_eq] at h
  omega

lemma hex_hexDigitUpper {n : Nat} (h : n < 16) : hex (hexDigitUpper n) = some n := by
  interval_cases n <;> decide

lemma pushChar_lt_128 {b : Nat} (h : b < 128) : pushChar b = [b] := by
  simp [pushChar, h]

/-- A byte that is neither `%` nor `+` is passed to the output as a char. -/
lemma percent_decode_cons (b : Nat) (tail : List Nat) (h37 : b ≠ 37) (h43 : b ≠ 43) :
    percent_decode (b :: tail) = pushChar b ++ percent_decode tail := by
  rw [percent_decode]
  · simp [h43]
  · simp [h37]

/-- Left-inverse on a single escaped byte below 128. -/
lemma percent_decode_escaped (b : Nat) (hb : b < 128) (rest : List Nat) :
    percent_decode (37 :: hexDigitUpper (b / 16 % 16) :: hexDigitUpper (b % 16) :: rest) =
      b :: percent_decode rest := by
  have h1 : hex (hexDigitUpper (b / 16 % 16)) = some (b / 16 % 16) :=
    hex_hexDigitUpper (by omega)
  have h2 : hex (hexDigitUpper (b % 16)) = some (b % 16) :=
    hex_hexDigitUpper (by omega)
  have hb' : 16 * (b / 16 % 16) + b % 16 = b := by omega
  rw [percent_decode]
  simp [h1, h2, hb', pushChar_lt_128 hb]

end Madokami

namespace Madokami

/-- C3: the percent-decoder is a left inverse of the strict component encoder
on printable-ASCII strings (every byte in `[32, 126]`). -/
theorem c3_decode_encode_printable_ascii (s : List Nat)
    (hs : ∀ b ∈ s, 32 ≤ b ∧ b ≤ 126) :
    percent_decode (encode_component s) = s := by
  induction s with
  | nil => rfl
  | cons b rest ih =>
    have hb := hs b (List.mem_cons_self b rest)
    have hrest : ∀ x ∈ rest, 32 ≤ x ∧ x ≤ 126 := fun x hx => hs x (List.mem_cons_of_mem b hx)
    show percent_decode (encodeByte b ++ encode_component rest) = b :: rest
    by_cases hu : isUnreservedByte b = true
    · obtain ⟨h37, h43, h128⟩ := isUnreservedByte_props hu
      simp only [encodeByte, hu, if_true, List.cons_append, List.nil_append]
      rw [percent_decode_cons b _ h37 h43, pushChar_lt_128 h128, ih hrest]
      rfl
    · simp only [encodeByte, hu, if_false, Bool.false_eq_true, List.cons_append, List.nil_append]
      rw [percent_decode_escaped b (by omega), ih hrest]

/-- Witness for C3 at the concrete string "a b!" = [97, 32, 98, 33]. -/
theorem c3_witness :
    percent_decode (encode_component [97, 32, 98, 33]) = [97, 32, 98, 33] :=
  c3_decode_encode_printable_ascii [97, 32, 98, 33] (by decide)

end Madokami

namespace Madokami

/-- Bytes of an ASCII string literal (each char below 128 is one byte). -/
def str2b (s : String) : List Nat :=
  s.data.map Char.toNat

/-- Rust `str::split(sep)` on the bytes of a string: splits at every separator
byte, keeping empty segments ( `"".split` yields one empty segment). -/
def splitByte (sep : Nat) : List Nat → List (List Nat)
  | [] => [[]]
  | b :: rest =>
    if b = sep then [] :: splitByte sep rest
    else
      match splitByte sep rest with
      | s :: ss => (b :: s) :: ss
      | [] => [[b]]

/-- The backwards walk of `derive_from_path`: percent-decoded first segment
whose decoded form does not start with `!` (byte 33); empty if none. -/
def firstNonBang : List (List Nat) → List Nat
  | [] => []
  | seg :: rest =>
    let dec := percent_decode seg
    if dec.head? = some 33 then firstNonBang rest else dec

/-- `derive_from_path` from lib.rs: split on `/` (byte 47), keep non-empty
segments; description is the decoded last segment, title the decoded nearest
segment from the end not starting with `!`. -/
def derive_from_path (path : List Nat) : List Nat × Option (List Nat) :=
  let segs := (splitByte 47 path).filter (fun s => !s.isEmpty)
  match segs.getLast? with
  | none => ([], none)
  | some lastSeg => (firstNonBang segs.reverse, some (percent_decode lastSeg))

/-- Does a decoded segment begin with `!`? -/
def startsWithBang (s : List Nat) : Bool :=
  s.head? == some 33

/-- Title as worded by the spec: the percent-decoded nearest segment, scanning
from the end, whose decoded form does not begin with `!`. -/
def spec_title (path : List Nat) : List Nat :=
  let segs := (splitByte 47 path).filter (fun s => !s.isEmpty)
  match segs.reverse.find? (fun seg => !startsWithBang (percent_decode seg)) with
  | some seg => percent_decode seg
  | none => []

/-- Description as worded by the spec: the percent-decoded last non-empty
segment, none if there is no segment. -/
def spec_description (path : List Nat) : Option (List Nat) :=
  (((splitByte 47 path).filter (fun s => !s.isEmpty)).getLast?).map percent_decode

lemma firstNonBang_eq_find (l : List (List Nat)) :
    firstNonBang l =
      match l.find? (fun seg => !startsWithBang (percent_decode seg)) with
      | some seg => percent_decode seg
      | none => [] := by
  induction l with
  | nil => rfl
  | cons seg rest ih =>
    by_cases hb : (percent_decode seg).head? = some 33
    · have hfind : (seg :: rest).find? (fun sg => !startsWithBang (percent_decode sg)) =
          rest.find? (fun sg => !startsWithBang (percent_decode sg)) :=
        List.find?_cons_of_neg _ (by simp [startsWithBang, hb])
      rw [firstNonBang, if_pos hb, hfind, ih]
    · have hfind : (seg :: rest).find? (fun sg => !startsWithBang (percent_decode sg)) =
          some seg :=
        List.find?_cons_of_pos _ (by simp [startsWithBang, hb])
      rw [firstNonBang, if_neg hb, hfind]

end Madokami

namespace Madokami

/-- C7: `derive_from_path` returns exactly the spec's title (decoded nearest
non-`!` segment from the end, empty when no segment exists) and the spec's
description (decoded last segment, none when no segment exists); and on the
concrete path "/Manga/S/Series-Name/!Group/Chapter-1/" it yields title and
description both "Chapter-1". -/
theorem c7_derive_from_path (path : List Nat) :
    derive_from_path path = (spec_title path, spec_description path) ∧
    derive_from_path (str2b "/Manga/S/Series-Name/!Group/Chapter-1/") =
      (str2b "Chapter-1", some (str2b "Chapter-1")) := by
  constructor
  · unfold derive_from_path spec_title spec_description
    cases hl : ((splitByte 47 path).filter (fun s => !s.isEmpty)).getLast? with
    | none =>
      have : (splitByte 47 path).filter (fun s => !s.isEmpty) = [] :=
        List.getLast?_eq_none_iff.mp hl
      simp [this]
    | some lastSeg =>
      simp only [hl, Option.map_some', firstNonBang_eq_find]
  · decide

end Madokami

namespace Madokami

/-- `normalize_chapter_href` from lib.rs. -/
def normalize_chapter_href (raw : List Nat) : List Nat :=
  if raw.head? = some 47 then raw else 47 :: raw

def i32min : Int := -2147483648

def i32max : Int := 2147483647

def i64min : Int := -9223372036854775808

def i64max : Int := 9223372036854775807

def isDigitB (b : Nat) : Bool :=
  decide (48 ≤ b) && decide (b ≤ 57)

def allDigits (s : List Nat) : Bool :=
  s.all isDigitB

def digitsToNat (s : List Nat) : Nat :=
  s.foldl (fun acc b => acc * 10 + (b - 48)) 0

/-- Digit run of Rust's integer `FromStr` after the optional sign: non-empty,
all ASCII digits, and the value must fit the integer type's range. -/
def parseDigitsRange (lo hi : Int) (ds : List Nat) (neg : Bool) : Option Int :=
  if ds.isEmpty then none
  else if allDigits ds then
    let v : Int := if neg then -(digitsToNat ds : Int) else (digitsToNat ds : Int)
    if lo ≤ v ∧ v ≤ hi then some v else none
  else none

/-- Rust `str::parse` for a bounded integer type with range `[lo, hi]`:
optional `+`/`-` sign followed by one or more ASCII digits. -/
def parseIntRange (lo hi : Int) : List Nat → Option Int
  | [] => none
  | c :: rest =>
    if c = 43 then parseDigitsRange lo hi rest false
    else if c = 45 then parseDigitsRange lo hi rest true
    else parseDigitsRange lo hi (c :: rest) false

/-- Rust `str::is_char_boundary` on the UTF-8 bytes: the position is the end of
the string or holds a byte that is not a continuation byte (`0x80..0xC0`). -/
def isCharBoundary (s : List Nat) (p : Nat) : Bool :=
  match (s.drop p).head? with
  | none => p == s.length
  | some b => decide (b < 128) || decide (192 ≤ b)

/-- Rust `&str[a..b]` byte slicing: panics (`none`) unless `a ≤ b ≤ len` and
both ends are char boundaries. -/
def strSlice (s : List Nat) (a b : Nat) : Option (List Nat) :=
  if a ≤ b ∧ b ≤ s.length ∧ isCharBoundary s a = true ∧ isCharBoundary s b = true
  then some ((s.drop a).take (b - a)) else none

/-- `simulate_relative` from lib.rs: seconds for a relative amount, negated. -/
def minB : List Nat := [109, 105, 110]

def hourB : List Nat := [104, 111, 117, 114]

def secB : List Nat := [115, 101, 99]

/-- Two's-complement wrap-around of an `i64` operation result: the release
profile the plugin ships with compiles `i64` arithmetic to wrapping. -/
def wrap64 (x : Int) : Int :=
  (x + 9223372036854775808) % 18446744073709551616 - 9223372036854775808

/-- `simulate_relative` from lib.rs: seconds for a relative amount, negated.
`amount` is an `i64`, so the multiplications `amount * 60`/`amount * 3600` and
the final negation are i64 operations that wrap on overflow. -/
def simulate_relative (unit : List Nat) (amount : Int) : Int :=
  wrap64
    (-(if minB.isPrefixOf unit then wrap64 (amount * 60)
      else if hourB.isPrefixOf unit then wrap64 (amount * 3600)
      else if secB.isPrefixOf unit then amount
      else 0))

/-- `days_since_epoch` from lib.rs (civil-date day count); `Int.tdiv` is
Rust's truncating `/` on `i32`.  The i32 arithmetic is modeled exactly over
`Int`: for every field combination `parse_chapter_date` can produce
(`-999 ≤ y ≤ 9999`, `-9 ≤ m, d ≤ 99`), all intermediates fit in i32. -/
def days_since_epoch (y m d : Int) : Int :=
  let y1 := y - (if m ≤ 2 then 1 else 0)
  let era := Int.tdiv (if 0 ≤ y1 then y1 else y1 - 399) 400
  let yoe := y1 - era * 400
  let doy := Int.tdiv (153 * (m + (if 2 < m then (-3) else 9)) + 2) 5 + d - 1
  let doe := yoe * 365 + Int.tdiv yoe 4 - Int.tdiv yoe 100 + doy
  era * 146097 + doe - 719468

def agoB : List Nat := [97, 103, 111]

/-- `parse_chapter_date` from lib.rs.  `none` models a Rust panic: in the
absolute branch the code slices `raw[0..4]`, `raw[5..7]`, `raw[8..10]`,
`raw[11..13]`, `raw[14..16]`, which panics when an offset falls inside a
multi-byte UTF-8 character. -/
def parse_chapter_date (raw : List Nat) : Option Int :=
  if raw.isEmpty then some 0
  else if agoB.isSuffixOf raw then
    let parts := splitByte 32 raw
    if 2 ≤ parts.length then
      match parseIntRange i64min i64max (parts.getD 0 []) with
      | some amount => some (simulate_relative (parts.getD 1 []) amount)
      | none => some 0
    else some 0
  else if 16 ≤ raw.length then
    match strSlice raw 0 4, strSlice raw 5 7, strSlice raw 8 10,
        strSlice raw 11 13, strSlice raw 14 16 with
    | some s1, some s2, some s3, some s4, some s5 =>
      let year := (parseIntRange i32min i32max s1).getD 1970
      let month := (parseIntRange i32min i32max s2).getD 1
      let day := (parseIntRange i32min i32max s3).getD 1
      let hour := (parseIntRange i32min i32max s4).getD 0
      let minute := (parseIntRange i32min i32max s5).getD 0
      some (days_since_epoch year month day * 86400 + hour * 3600 + minute * 60)
    | _, _, _, _, _ => none
  else some 0

end Madokami

namespace Madokami

/-- C1: the input "abcé-01-01 00:00" (17 UTF-8 bytes, 'é' = [195, 169]) is
non-empty, does not end in "ago" and has byte length ≥ 16, so the code slices
`raw[0..4]`; byte offset 4 falls inside 'é', so the slice panics instead of
returning an integer — `none` in the model. -/
theorem c1_absolute_branch_panics :
    parse_chapter_date [97, 98, 99, 195, 169, 45, 48, 49, 45, 48, 49, 32, 48, 48, 58, 48, 48] =
      none := by
  decide

end Madokami

namespace Madokami

lemma splitByte_sep_cons (sep : Nat) (xs ys : List Nat) (h : sep ∉ xs) :
    splitByte sep (xs ++ sep :: ys) = xs :: splitByte sep ys := by
  induction xs with
  | nil => simp [splitByte]
  | cons x xs ih =>
    have hx : x ≠ sep := fun he => h (he ▸ List.mem_cons_self x xs)
    have hxs : sep ∉ xs := fun hm => h (List.mem_cons_of_mem x hm)
    simp only [List.cons_append, splitByte, if_neg hx, List.append_eq]
    rw [ih hxs]

lemma splitByte_no_sep (sep : Nat) (xs : List Nat) (h : sep ∉ xs) :
    splitByte sep xs = [xs] := by
  induction xs with
  | nil => rfl
  | cons x xs ih =>
    have hx : x ≠ sep := fun he => h (he ▸ List.mem_cons_self x xs)
    have hxs : sep ∉ xs := fun hm => h (List.mem_cons_of_mem x hm)
    simp only [splitByte, if_neg hx, ih hxs]

lemma getLast?_of_ago_suffix {l : List Nat} (h : agoB.isSuffixOf l = true) :
    l.getLast? = some 111 := by
  have h2 : agoB <:+ l := by simpa using h
  obtain ⟨t, rfl⟩ := h2
  rw [show agoB = [97, 103] ++ [111] from rfl, ← List.append_assoc, List.getLast?_concat]

lemma ago_isSuffixOf_append (pre : List Nat) :
    agoB.isSuffixOf (pre ++ agoB) = true :=
  List.isSuffixOf_iff_suffix.mpr (List.suffix_append pre agoB)

lemma wrap64_eq {x : Int} (h1 : i64min ≤ x) (h2 : x ≤ i64max) : wrap64 x = x := by
  unfold i64min at h1
  unfold i64max at h2
  unfold wrap64
  omega

/-- Negating an in-range, non-minimal i64 value stays in range, so the final
negation of `simulate_relative` does not wrap either. -/
lemma wrap64_neg_wrap64 {x : Int} (h1 : i64min < x) (h2 : x ≤ i64max) :
    wrap64 (-(wrap64 x)) = -x := by
  rw [wrap64_eq (le_of_lt h1) h2]
  apply wrap64_eq
  · unfold i64min at h1 ⊢
    unfold i64max at h2
    omega
  · unfold i64min at h1
    unfold i64max at h2 ⊢
    omega

lemma wrap64_neg {x : Int} (h1 : i64min < x) (h2 : x ≤ i64max) :
    wrap64 (-x) = -x := by
  apply wrap64_eq
  · unfold i64min at h1 ⊢
    unfold i64max at h2
    omega
  · unfold i64min at h1
    unfold i64max at h2 ⊢
    omega

lemma parseDigitsRange_bounds {lo hi : Int} {ds : List Nat} {neg : Bool} {v : Int}
    (h : parseDigitsRange lo hi ds neg = some v) : lo ≤ v ∧ v ≤ hi := by
  simp only [parseDigitsRange] at h
  by_cases h1 : ds.isEmpty = true
  · rw [if_pos h1] at h
    cases h
  · rw [if_neg h1] at h
    by_cases h2 : allDigits ds = true
    · rw [if_pos h2] at h
      by_cases h3 : lo ≤ (if neg then -(digitsToNat ds : Int) else (digitsToNat ds : Int)) ∧
          (if neg then -(digitsToNat ds : Int) else (digitsToNat ds : Int)) ≤ hi
      · rw [if_pos h3] at h
        cases h
        exact h3
      · rw [if_neg h3] at h
        cases h
    · rw [if_neg h2] at h
      cases h

lemma parseIntRange_bounds {lo hi : Int} {s : List Nat} {v : Int}
    (h : parseIntRange lo hi s = some v) : lo ≤ v ∧ v ≤ hi := by
  cases s with
  | nil => cases h
  | cons c rest =>
    simp only [parseIntRange] at h
    by_cases h1 : c = 43
    · rw [if_pos h1] at h
      exact parseDigitsRange_bounds h
    · rw [if_neg h1] at h
      by_cases h2 : c = 45
      · rw [if_pos h2] at h
        exact parseDigitsRange_bounds h
      · rw [if_neg h2] at h
        exact parseDigitsRange_bounds h

/-- C5 fails as stated: for N = 9223372036854775807 (i64::MAX) and unit "min"
— the input "9223372036854775807 min ago" — the i64 product N*60 wraps to -60
and the parser returns 60, not -(N*60). -/
theorem c5_counterexample :
    parse_chapter_date
        ([57, 50, 50, 51, 51, 55, 50, 48, 51, 54, 56, 53, 52, 55, 55, 53, 56, 48, 55] ++
          32 :: [109, 105, 110] ++ 32 :: agoB) = some 60 ∧
    (60 : Int) ≠ -(9223372036854775807 * 60) := by
  constructor
  · decide
  · decide

/-- C5 amended: for a relative-form string "N unit ago" (number bytes `nb` and
unit bytes `ub` contain no space) where `nb` parses as an i64, the parser
returns `-N`, `-N*60`, `-N*3600` seconds when the unit starts with "sec",
"min", "hour" respectively — provided the product and its negation stay in
i64 range (outside it the i64 arithmetic wraps, see the counterexample) — and
`0` for any other unit. -/
theorem c5_relative_dates (nb ub : List Nat) (n : Int)
    (hnb : 32 ∉ nb) (hub : 32 ∉ ub)
    (hparse : parseIntRange i64min i64max nb = some n) :
    (secB.isPrefixOf ub = true → i64min < n →
      parse_chapter_date (nb ++ 32 :: ub ++ 32 :: agoB) = some (-(n * 1))) ∧
    (minB.isPrefixOf ub = true → i64min < n * 60 → n * 60 ≤ i64max →
      parse_chapter_date (nb ++ 32 :: ub ++ 32 :: agoB) = some (-(n * 60))) ∧
    (hourB.isPrefixOf ub = true → i64min < n * 3600 → n * 3600 ≤ i64max →
      parse_chapter_date (nb ++ 32 :: ub ++ 32 :: agoB) = some (-(n * 3600))) ∧
    (secB.isPrefixOf ub = false → minB.isPrefixOf ub = false →
      hourB.isPrefixOf ub = false →
      parse_chapter_date (nb ++ 32 :: ub ++ 32 :: agoB) = some 0) := by
  have hsuf : agoB.isSuffixOf (nb ++ 32 :: ub ++ 32 :: agoB) = true := by
    have : nb ++ 32 :: ub ++ 32 :: agoB = (nb ++ 32 :: ub ++ [32]) ++ agoB := by
      simp
    rw [this]; exact ago_isSuffixOf_append _
  have hne : (nb ++ 32 :: ub ++ 32 :: agoB).isEmpty = false := by
    cases nb <;> rfl
  have hparts : splitByte 32 (nb ++ 32 :: ub ++ 32 :: agoB) = [nb, ub, agoB] := by
    rw [show nb ++ 32 :: ub ++ 32 :: agoB = nb ++ 32 :: (ub ++ 32 :: agoB) by simp,
      splitByte_sep_cons 32 nb _ hnb, splitByte_sep_cons 32 ub _ hub,
      splitByte_no_sep 32 agoB (by decide)]
  have hmain : parse_chapter_date (nb ++ 32 :: ub ++ 32 :: agoB) =
      some (simulate_relative ub n) := by
    rw [parse_chapter_date, if_neg (by simp [hne]), if_pos hsuf]
    simp only [hparts, List.length_cons, List.length_nil, List.getD]
    rw [if_pos (by omega)]
    simp [hparse]
  have hnb_bounds := parseIntRange_bounds hparse
  refine ⟨fun hs hlo => ?_, fun hm hlo hhi => ?_, fun hh hlo hhi => ?_,
    fun hs hm hh => ?_⟩
  · have hsp : secB <+: ub := by simpa using hs
    obtain ⟨t, rfl⟩ := hsp
    have hred : simulate_relative (secB ++ t) n = wrap64 (-n) := by
      simp [simulate_relative, minB, hourB, secB, List.isPrefixOf]
    rw [hmain, hred, wrap64_neg hlo hnb_bounds.2, mul_one]
  · have hmp : minB <+: ub := by simpa using hm
    obtain ⟨t, rfl⟩ := hmp
    have hred : simulate_relative (minB ++ t) n = wrap64 (-(wrap64 (n * 60))) := by
      simp [simulate_relative, minB, List.isPrefixOf]
    rw [hmain, hred, wrap64_neg_wrap64 hlo hhi]
  · have hhp : hourB <+: ub := by simpa using hh
    obtain ⟨t, rfl⟩ := hhp
    have hred : simulate_relative (hourB ++ t) n = wrap64 (-(wrap64 (n * 3600))) := by
      simp [simulate_relative, minB, hourB, List.isPrefixOf]
    rw [hmain, hred, wrap64_neg_wrap64 hlo hhi]
  · rw [hmain]
    have hred : simulate_relative ub n = wrap64 (-0) := by
      simp only [simulate_relative, hs, hm, hh, Bool.false_eq_true, if_false]
    rw [hred, neg_zero, wrap64_eq (by decide) (by decide)]

/-- Witness for the amended C5 at "5 min ago". -/
theorem c5_witness :
    parse_chapter_date ([53] ++ 32 :: [109, 105, 110] ++ 32 :: agoB) = some (-(5 * 60)) :=
  (c5_relative_dates [53] [109, 105, 110] 5 (by decide) (by decide) (by decide)).2.1
    (by decide) (by decide) (by decide)

end Madokami

namespace Madokami

/-- Two ASCII digits of a value below 100, as in "MM", "dd", "HH", "mm". -/
def d2b (n : Nat) : List Nat :=
  [48 + n / 10 % 10, 48 + n % 10]

/-- Four ASCII digits of a value below 10000, as in "yyyy". -/
def d4b (n : Nat) : List Nat :=
  [48 + n / 1000 % 10, 48 + n / 100 % 10, 48 + n / 10 % 10, 48 + n % 10]

/-- The 16-byte absolute date string "yyyy-MM-dd HH:mm". -/
def renderDate (y m d h mi : Nat) : List Nat :=
  d4b y ++ 45 :: (d2b m ++ 45 :: (d2b d ++ 32 :: (d2b h ++ 58 :: d2b mi)))

/-- The head byte (if any) is not a UTF-8 continuation byte. -/
def headByteOk (l : List Nat) : Prop :=
  ∀ b, l.head? = some b → b < 128 ∨ 192 ≤ b

lemma isCharBoundary_append (pre rest : List Nat) (h : headByteOk rest) :
    isCharBoundary (pre ++ rest) pre.length = true := by
  unfold isCharBoundary
  rw [List.drop_left]
  cases hr : rest.head? with
  | none =>
    have hrest : rest = [] := by
      cases rest with
      | nil => rfl
      | cons a l => simp at hr
    subst hrest
    simp
  | some b =>
    rcases h b hr with hb | hb <;> simp [hb]

lemma strSlice_append (s pre seg post : List Nat) (a b : Nat)
    (hs : s = pre ++ (seg ++ post)) (ha : a = pre.length)
    (hb : b = pre.length + seg.length)
    (h1 : headByteOk (seg ++ post)) (h2 : headByteOk post) :
    strSlice s a b = some seg := by
  subst hs ha hb
  have hb1 : isCharBoundary (pre ++ (seg ++ post)) pre.length = true :=
    isCharBoundary_append _ _ h1
  have hb2 : isCharBoundary (pre ++ (seg ++ post)) (pre.length + seg.length) = true := by
    have he : pre ++ (seg ++ post) = (pre ++ seg) ++ post := by simp
    have hl : pre.length + seg.length = (pre ++ seg).length := by simp
    rw [he, hl]
    exact isCharBoundary_append _ _ h2
  unfold strSlice
  rw [if_pos ⟨by omega, by simp, hb1, hb2⟩]
  rw [List.drop_left, Nat.add_sub_cancel_left]
  rw [List.take_left' rfl]

lemma parseIntRange_d2b (lo hi : Int) (x : Nat) (hx : x ≤ 99)
    (hlo : lo ≤ 0) (hhi : 99 ≤ hi) :
    parseIntRange lo hi (d2b x) = some (x : Int) := by
  have h1 : x / 10 % 10 = x / 10 := by omega
  simp only [d2b, parseIntRange]
  rw [if_neg (by omega), if_neg (by omega)]
  unfold parseDigitsRange
  rw [if_neg (by simp)]
  rw [if_pos (by simp [allDigits, isDigitB]; omega)]
  simp only [Bool.false_eq_true, if_false, digitsToNat, List.foldl]
  rw [if_pos (by constructor <;> [omega; (push_cast; omega)])]
  congr 1
  push_cast
  omega

lemma parseIntRange_d4b (lo hi : Int) (x : Nat) (hx : x ≤ 9999)
    (hlo : lo ≤ 0) (hhi : 9999 ≤ hi) :
    parseIntRange lo hi (d4b x) = some (x : Int) := by
  simp only [d4b, parseIntRange]
  rw [if_neg (by omega), if_neg (by omega)]
  unfold parseDigitsRange
  rw [if_neg (by simp)]
  rw [if_pos (by simp [allDigits, isDigitB]; omega)]
  simp only [Bool.false_eq_true, if_false, digitsToNat, List.foldl]
  rw [if_pos (by constructor <;> [omega; (push_cast; omega)])]
  congr 1
  push_cast
  omega

/-- Evaluation of `parse_chapter_date` on a well-formed absolute date string. -/
lemma parse_renderDate (y m d h mi : Nat) (hy : y ≤ 9999) (hm : m ≤ 99) (hd : d ≤ 99)
    (hh : h ≤ 99) (hmi : mi ≤ 99) :
    parse_chapter_date (renderDate y m d h mi) =
      some (days_since_epoch y m d * 86400 + h * 3600 + mi * 60) := by
  have hlen : (renderDate y m d h mi).length = 16 := by
    simp [renderDate, d4b, d2b]
  have hnil : renderDate y m d h mi ≠ [] := by
    intro he
    rw [he] at hlen
    simp at hlen
  have hne : (renderDate y m d h mi).isEmpty = false :=
    List.isEmpty_eq_false.mpr hnil
  have hsplit : renderDate y m d h mi =
      [48 + y / 1000 % 10, 48 + y / 100 % 10, 48 + y / 10 % 10, 48 + y % 10, 45,
       48 + m / 10 % 10, 48 + m % 10, 45, 48 + d / 10 % 10, 48 + d % 10, 32,
       48 + h / 10 % 10, 48 + h % 10, 58, 48 + mi / 10 % 10] ++ [48 + mi % 10] := by
    simp [renderDate, d4b, d2b]
  have hlast : (renderDate y m d h mi).getLast? = some (48 + mi % 10) := by
    rw [hsplit, List.getLast?_concat]
  have hsuf : agoB.isSuffixOf (renderDate y m d h mi) = false := by
    cases hs : agoB.isSuffixOf (renderDate y m d h mi) with
    | false => rfl
    | true =>
      have h111 := getLast?_of_ago_suffix hs
      rw [hlast] at h111
      have : 48 + mi % 10 = 111 := by injection h111
      omega
  have e1 : strSlice (renderDate y m d h mi) 0 4 = some (d4b y) :=
    strSlice_append _ [] (d4b y) (45 :: (d2b m ++ 45 :: (d2b d ++ 32 :: (d2b h ++ 58 :: d2b mi))))
      0 4 (by simp [renderDate]) (by simp) (by simp [d4b])
      (by intro b hb; simp [d4b] at hb; omega)
      (by intro b hb; simp at hb; omega)
  have e2 : strSlice (renderDate y m d h mi) 5 7 = some (d2b m) :=
    strSlice_append _ (d4b y ++ [45]) (d2b m) (45 :: (d2b d ++ 32 :: (d2b h ++ 58 :: d2b mi)))
      5 7 (by simp [renderDate]) (by simp [d4b]) (by simp [d4b, d2b])
      (by intro b hb; simp [d2b] at hb; omega)
      (by intro b hb; simp at hb; omega)
  have e3 : strSlice (renderDate y m d h mi) 8 10 = some (d2b d) :=
    strSlice_append _ (d4b y ++ 45 :: d2b m ++ [45]) (d2b d) (32 :: (d2b h ++ 58 :: d2b mi))
      8 10 (by simp [renderDate]) (by simp [d4b, d2b]) (by simp [d4b, d2b])
      (by intro b hb; simp [d2b] at hb; omega)
      (by intro b hb; simp at hb; omega)
  have e4 : strSlice (renderDate y m d h mi) 11 13 = some (d2b h) :=
    strSlice_append _ (d4b y ++ 45 :: d2b m ++ 45 :: d2b d ++ [32]) (d2b h) (58 :: d2b mi)
      11 13 (by simp [renderDate]) (by simp [d4b, d2b]) (by simp [d4b, d2b])
      (by intro b hb; simp [d2b] at hb; omega)
      (by intro b hb; simp at hb; omega)
  have e5 : strSlice (renderDate y m d h mi) 14 16 = some (d2b mi) :=
    strSlice_append _ (d4b y ++ 45 :: d2b m ++ 45 :: d2b d ++ 32 :: d2b h ++ [58]) (d2b mi) []
      14 16 (by simp [renderDate]) (by simp [d4b, d2b]) (by simp [d4b, d2b])
      (by intro b hb; simp [d2b] at hb; omega)
      (by intro b hb; simp at hb)
  rw [parse_chapter_date, if_neg (by simp [hne]), if_neg (by simp [hsuf]),
    if_pos (le_of_eq hlen.symm)]
  rw [e1, e2, e3, e4, e5]
  simp only
  rw [parseIntRange_d4b i32min i32max y hy (by decide) (by decide),
    parseIntRange_d2b i32min i32max m hm (by decide) (by decide),
    parseIntRange_d2b i32min i32max d hd (by decide) (by decide),
    parseIntRange_d2b i32min i32max h hh (by decide) (by decide),
    parseIntRange_d2b i32min i32max mi hmi (by decide) (by decide)]
  simp

end Madokami

namespace Madokami

/-- Days-from-March-1 count of a computational year `a` (year minus the
January/February adjustment), as computed by `days_since_epoch`. -/
def gdays (a : Int) : Int :=
  a / 400 * 146097 + a % 400 * 365 + a % 400 / 4 - a % 400 / 100

/-- Day-of-year offset of month `m` in `days_since_epoch`. -/
def doyPart (m : Int) : Int :=
  (153 * (m + (if 2 < m then (-3) else 9)) + 2) / 5

lemma days_since_epoch_eq (y m d : Int) (hy : 1 ≤ y) (hm1 : 1 ≤ m) (hm2 : m ≤ 12) :
    days_since_epoch y m d =
      gdays (y - (if m ≤ 2 then 1 else 0)) + doyPart m + d - 1 - 719468 := by
  have hy1 : 0 ≤ y - (if m ≤ 2 then (1:Int) else 0) := by split <;> omega
  have hnum : 0 ≤ 153 * (m + (if 2 < m then (-3:Int) else 9)) + 2 := by
    split <;> omega
  simp only [days_since_epoch, gdays, doyPart]
  rw [if_pos hy1]
  rw [Int.tdiv_eq_ediv hy1 (by norm_num)]
  rw [Int.tdiv_eq_ediv (by omega) (by norm_num : (0:Int) ≤ 4)]
  rw [Int.tdiv_eq_ediv (by omega) (by norm_num : (0:Int) ≤ 100)]
  rw [Int.tdiv_eq_ediv hnum (by norm_num : (0:Int) ≤ 5)]
  omega

lemma gdays_mono {a b : Int} (hab : a < b) : gdays a < gdays b := by
  unfold gdays
  omega

lemma gdays_step (a : Int) : gdays a + 365 ≤ gdays (a + 1) := by
  unfold gdays
  omega

lemma doyPart_mono {m1 m2 : Int} (h1 : 1 ≤ m1) (hlt : m1 < m2)
    (hs : (m1 ≤ 2 ∧ m2 ≤ 2) ∨ (2 < m1 ∧ 2 < m2)) : doyPart m1 < doyPart m2 := by
  unfold doyPart
  rcases hs with ⟨ha, hb⟩ | ⟨ha, hb⟩
  · rw [if_neg (by omega), if_neg (by omega)]
    omega
  · rw [if_pos ha, if_pos hb]
    omega

lemma doyPart_le (m : Int) (h1 : 1 ≤ m) (h2 : m ≤ 2) : doyPart m ≤ 337 := by
  unfold doyPart
  rw [if_neg (by omega)]
  omega

lemma doyPart_nonneg (m : Int) (h1 : 3 ≤ m) : 0 ≤ doyPart m := by
  unfold doyPart
  rw [if_pos (by omega)]
  omega

lemma days_mono_year (y y' m d : Int) (hy : 1 ≤ y) (hlt : y < y')
    (h1 : 1 ≤ m) (h2 : m ≤ 12) :
    days_since_epoch y m d < days_since_epoch y' m d := by
  rw [days_since_epoch_eq y m d hy h1 h2, days_since_epoch_eq y' m d (by omega) h1 h2]
  have := gdays_mono (a := y - (if m ≤ 2 then 1 else 0))
    (b := y' - (if m ≤ 2 then 1 else 0)) (by omega)
  linarith

lemma days_mono_month (y m m' d : Int) (hy : 1 ≤ y) (h1 : 1 ≤ m) (hlt : m < m')
    (h2 : m' ≤ 12) :
    days_since_epoch y m d < days_since_epoch y m' d := by
  rw [days_since_epoch_eq y m d hy h1 (by omega), days_since_epoch_eq y m' d hy (by omega) h2]
  rcases le_or_lt m' 2 with hb | hb
  · rw [if_pos (by omega : m ≤ 2), if_pos hb]
    have := doyPart_mono h1 hlt (Or.inl ⟨by omega, hb⟩)
    linarith
  · rcases le_or_lt m 2 with ha | ha
    · rw [if_pos ha, if_neg (by omega), sub_zero]
      have hg := gdays_step (y - 1)
      have hg2 : y - 1 + 1 = y := by ring
      rw [hg2] at hg
      have hd1 := doyPart_le m h1 ha
      have hd2 := doyPart_nonneg m' (by omega)
      linarith
    · rw [if_neg (by omega), if_neg (by omega)]
      have := doyPart_mono h1 hlt (Or.inr ⟨ha, hb⟩)
      linarith

lemma days_mono_day (y m d d' : Int) (hy : 1 ≤ y) (h1 : 1 ≤ m) (h2 : m ≤ 12)
    (hlt : d < d') :
    days_since_epoch y m d < days_since_epoch y m d' := by
  rw [days_since_epoch_eq y m d hy h1 h2, days_since_epoch_eq y m d' hy h1 h2]
  linarith

/-- Leap-year rule of the civil calendar (spec-side validity notion). -/
def isLeapYear (y : Nat) : Bool :=
  decide ((y % 4 = 0 ∧ y % 100 ≠ 0) ∨ y % 400 = 0)

/-- Days in a civil month (spec-side validity notion). -/
def daysInMonth (y m : Nat) : Nat :=
  if m = 2 then (if isLeapYear y then 29 else 28)
  else if m = 4 ∨ m = 6 ∨ m = 9 ∨ m = 11 then 30 else 31

/-- A valid in-range field combination for "yyyy-MM-dd HH:mm". -/
def validDate (y m d h mi : Nat) : Prop :=
  1 ≤ y ∧ y ≤ 9999 ∧ 1 ≤ m ∧ m ≤ 12 ∧ 1 ≤ d ∧ d ≤ daysInMonth y m ∧
    h ≤ 23 ∧ mi ≤ 59

instance (y m d h mi : Nat) : Decidable (validDate y m d h mi) := by
  unfold validDate
  exact inferInstance

lemma daysInMonth_le (y m : Nat) : daysInMonth y m ≤ 31 := by
  unfold daysInMonth
  split_ifs <;> omega

end Madokami

namespace Madokami

/-- C4: for 16-byte absolute inputs "yyyy-MM-dd HH:mm" with valid in-range
fields, `parse_chapter_date` succeeds and is strictly increasing in each of
the five components (year, month, day, hour, minute) when the other four are
held fixed. -/
theorem c4_absolute_monotone (y m d h mi y' m' d' h' mi' : Nat)
    (hv : validDate y m d h mi) (hv' : validDate y' m' d' h' mi') :
    (m = m' → d = d' → h = h' → mi = mi' → y < y' →
      ∃ v v', parse_chapter_date (renderDate y m d h mi) = some v ∧
        parse_chapter_date (renderDate y' m' d' h' mi') = some v' ∧ v < v') ∧
    (y = y' → d = d' → h = h' → mi = mi' → m < m' →
      ∃ v v', parse_chapter_date (renderDate y m d h mi) = some v ∧
        parse_chapter_date (renderDate y' m' d' h' mi') = some v' ∧ v < v') ∧
    (y = y' → m = m' → h = h' → mi = mi' → d < d' →
      ∃ v v', parse_chapter_date (renderDate y m d h mi) = some v ∧
        parse_chapter_date (renderDate y' m' d' h' mi') = some v' ∧ v < v') ∧
    (y = y' → m = m' → d = d' → mi = mi' → h < h' →
      ∃ v v', parse_chapter_date (renderDate y m d h mi) = some v ∧
        parse_chapter_date (renderDate y' m' d' h' mi') = some v' ∧ v < v') ∧
    (y = y' → m = m' → d = d' → h = h' → mi < mi' →
      ∃ v v', parse_chapter_date (renderDate y m d h mi) = some v ∧
        parse_chapter_date (renderDate y' m' d' h' mi') = some v' ∧ v < v') := by
  obtain ⟨hy1, hy9, hm1, hm12, hd1, hdin, hh23, hmi59⟩ := hv
  obtain ⟨hy1', hy9', hm1', hm12', hd1', hdin', hh23', hmi59'⟩ := hv'
  have hd31 : d ≤ 31 := le_trans hdin (daysInMonth_le y m)
  have hd31' : d' ≤ 31 := le_trans hdin' (daysInMonth_le y' m')
  have hp := parse_renderDate y m d h mi (by omega) (by omega) (by omega) (by omega) (by omega)
  have hp' := parse_renderDate y' m' d' h' mi' (by omega) (by omega) (by omega) (by omega)
    (by omega)
  refine ⟨fun e1 e2 e3 e4 hlt => ?_, fun e1 e2 e3 e4 hlt => ?_,
    fun e1 e2 e3 e4 hlt => ?_, fun e1 e2 e3 e4 hlt => ?_, fun e1 e2 e3 e4 hlt => ?_⟩ <;>
    subst e1 <;> subst e2 <;> subst e3 <;> subst e4 <;>
    refine ⟨_, _, hp, hp', ?_⟩
  · have := days_mono_year y y' m d (by exact_mod_cast hy1) (by exact_mod_cast hlt)
      (by exact_mod_cast hm1) (by exact_mod_cast hm12)
    generalize days_since_epoch (y : Int) m d = D1 at this ⊢
    generalize days_since_epoch (y' : Int) m d = D2 at this ⊢
    omega
  · have := days_mono_month y m m' d (by exact_mod_cast hy1) (by exact_mod_cast hm1)
      (by exact_mod_cast hlt) (by exact_mod_cast hm12')
    generalize days_since_epoch (y : Int) m d = D1 at this ⊢
    generalize days_since_epoch (y : Int) m' d = D2 at this ⊢
    omega
  · have := days_mono_day y m d d' (by exact_mod_cast hy1) (by exact_mod_cast hm1)
      (by exact_mod_cast hm12) (by exact_mod_cast hlt)
    generalize days_since_epoch (y : Int) m d = D1 at this ⊢
    generalize days_since_epoch (y : Int) m d' = D2 at this ⊢
    omega
  · generalize days_since_epoch (y : Int) m d = D
    have : (h : Int) < h' := by exact_mod_cast hlt
    omega
  · generalize days_since_epoch (y : Int) m d = D
    have : (mi : Int) < mi' := by exact_mod_cast hlt
    omega

/-- Witness for C4: 2020-01-31 23:59 against 2021-01-31 23:59 (year step). -/
theorem c4_witness :
    ∃ v v', parse_chapter_date (renderDate 2020 1 31 23 59) = some v ∧
      parse_chapter_date (renderDate 2021 1 31 23 59) = some v' ∧ v < v' :=
  (c4_absolute_monotone 2020 1 31 23 59 2021 1 31 23 59 (by decide) (by decide)).1
    rfl rfl rfl rfl (by decide)

end Madokami

namespace Madokami

/-!
Host data model (aidoku structs), restricted to the fields this adapter
writes.  `chapter_number : f32` is floating point and is referenced by no
claim, so the `Chapter` model omits it.  Scraping entry points take as input
the data the CSS selectors extract from the fetched document; the selector
engine, the HTTP transport and the JSON decoder (`serde_json`) are host-side
libraries outside the adapter.
-/

inductive MangaStatus
  | Unknown
  | Ongoing
  | Completed
deriving DecidableEq

structure ChapterE where
  key : List Nat
  title : Option (List Nat)
  dateUploaded : Option Int
deriving DecidableEq

structure MangaE where
  key : List Nat
  title : List Nat
  cover : Option (List Nat) := none
  description : Option (List Nat) := none
  authors : Option (List (List Nat)) := none
  artists : Option (List (List Nat)) := none
  status : MangaStatus := MangaStatus.Unknown
  tags : Option (List (List Nat)) := none
  chapters : Option (List ChapterE) := none
deriving DecidableEq

structure MangaPageResultE where
  entries : List MangaE
  has_next_page : Bool
deriving DecidableEq

def baseUrlB : List Nat := str2b "https://manga.madokami.al"

/-- Per-row extraction shared verbatim by `get_search_manga_list` and the
"recent" branch of `get_manga_list`: the input is the `href` of the first
anchor of the first column (`none` when the anchor or attribute is missing,
which skips the row); a row whose derived title is empty is skipped. -/
def rowToManga (href : Option (List Nat)) : Option MangaE :=
  href.bind fun key =>
    let td := derive_from_path key
    if td.1.isEmpty then none
    else some { key := key, title := td.1,
                description := td.2.filter fun dsc => !dsc.isEmpty }

/-- `get_search_manga_list` from lib.rs, as a function of the selected result
rows (`none` when the row selector finds nothing).  Search is unpaginated:
`has_next_page` is always false. -/
def get_search_manga_list (rows : Option (List (Option (List Nat)))) : MangaPageResultE :=
  { entries := (rows.map fun rs => rs.filterMap rowToManga).getD []
    has_next_page := false }

inductive DeepLinkResultE
  | chapterRef (mangaKey key : List Nat)
  | mangaRef (key : List Nat)
deriving DecidableEq

/-- The main key carried by a deep-link result. -/
def DeepLinkResultE.key : DeepLinkResultE → List Nat
  | chapterRef _ k => k
  | mangaRef k => k

/-- Rust `str::contains` for a literal needle. -/
def containsSub (needle hay : List Nat) : Bool :=
  hay.tails.any fun t => needle.isPrefixOf t

/-- `handle_deep_link` from lib.rs.  The Rust function returns
`Ok(None)` for a foreign URL and `Ok(Some(..))` otherwise — it never errors —
so the model keeps only the `Option`. -/
def handle_deep_link (url : List Nat) : Option DeepLinkResultE :=
  if baseUrlB.isPrefixOf url then
    let key := url.drop baseUrlB.length
    if (str2b "reader/").isPrefixOf key || containsSub (str2b "/reader/") key then
      some (DeepLinkResultE.chapterRef [] key)
    else some (DeepLinkResultE.mangaRef key)
  else none

/-- One chapter-list table row: the 6th column's anchor `href`, the 1st
column's anchor text, and the 3rd column's text. -/
structure ChapterRowE where
  href : Option (List Nat)
  titleText : Option (List Nat)
  dateText : Option (List Nat)
deriving DecidableEq

/-- Data the detail/chapter selectors extract from a series page. -/
structure DetailDocE where
  cover : Option (List Nat)
  titleText : Option (List Nat)
  authors : Option (List (List Nat))
  artists : Option (List (List Nat))
  synopsis : Option (List Nat)
  statusText : Option (List Nat)
  tags : Option (List (List Nat))
  chapterRows : Option (List ChapterRowE)
deriving DecidableEq

def yesB : List Nat := str2b "Yes"

def noB : List Nat := str2b "No"

/-- The `needs_details` block of `get_manga_update`, in source order:
cover, key-derived title/description fallback, title override, authors,
artists, synopsis (overwriting description), status vocabulary, tags. -/
def applyDetails (manga : MangaE) (doc : DetailDocE) : MangaE :=
  let m1 := { manga with cover := doc.cover }
  let m2 :=
    if m1.title.isEmpty then
      let td := derive_from_path m1.key
      let ma := if !td.1.isEmpty then { m1 with title := td.1 } else m1
      if ma.description.isNone then { ma with description := td.2 } else ma
    else m1
  let m3 :=
    match doc.titleText with
    | some t => if !t.isEmpty then { m2 with title := t } else m2
    | none => m2
  let m4 := { m3 with authors := doc.authors, artists := doc.artists,
                      description := doc.synopsis }
  let st := doc.statusText.getD []
  let m5 := { m4 with status :=
    if st = yesB then MangaStatus.Completed
    else if st = noB then MangaStatus.Ongoing
    else MangaStatus.Unknown }
  { m5 with tags := doc.tags }

/-- One chapter row of the `needs_chapters` block.  Outer `none` models the
panic `parse_chapter_date` can raise (see C1); inner `none` models a dropped
row (missing 6th-column anchor). -/
def rowChapter (r : ChapterRowE) : Option (Option ChapterE) :=
  match r.href with
  | none => some none
  | some href =>
    match parse_chapter_date (r.dateText.getD []) with
    | none => none
    | some dt =>
      some (some { key := normalize_chapter_href href, title := r.titleText,
                   dateUploaded := some dt })

/-- Effectful map over a list in the `Option` monad (panic propagation). -/
def mapMOpt (f : α → Option β) : List α → Option (List β)
  | [] => some []
  | a :: rest => (f a).bind fun b => (mapMOpt f rest).map fun bs => b :: bs

/-- `get_manga_update` from lib.rs, as a function of the extracted page data:
the detail fields are rewritten only under `needsDetails`; under
`needsChapters` the chapter rows are mapped (dropping rows with no anchor)
and the collected list is reversed. -/
def get_manga_update (manga : MangaE) (doc : DetailDocE)
    (needsDetails needsChapters : Bool) : Option MangaE :=
  let m1 := if needsDetails then applyDetails manga doc else manga
  if needsChapters then
    match doc.chapterRows with
    | none => some { m1 with chapters := none }
    | some rows =>
      (mapMOpt rowChapter rows).map fun cs =>
        { m1 with chapters := some ((cs.filterMap id).reverse) }
  else some m1

structure PageE where
  content : List Nat
deriving DecidableEq

/-- Image URL built by `get_page_list` for one filename. -/
def pageUrl (dataPath file : List Nat) : List Nat :=
  baseUrlB ++ str2b "/reader/image?path=" ++ encode_component dataPath ++
    str2b "&file=" ++ encode_component file

/-- `get_page_list` from lib.rs, as a function of the reader element (pair of
`data-path` and `data-files` attributes, `none` when the element or an
attribute is missing) and of the host JSON decoder for a string array
(`none` on malformed JSON, modeling `serde_json::from_str` + `unwrap_or_default`). -/
def get_page_list (reader : Option (Option (List Nat) × Option (List Nat)))
    (decodeJson : List Nat → Option (List (List Nat))) :
    Except (List Nat) (List PageE) :=
  let dataPath := (reader.map fun p => p.1.getD []).getD []
  let filesJson := (reader.map fun p => p.2.getD []).getD []
  if dataPath.isEmpty || filesJson.isEmpty then Except.ok []
  else Except.ok (((decodeJson filesJson).getD []).map fun f => { content := pageUrl dataPath f })

/-- Data the "recent" listing selectors extract: the mobile-table rows and the
`a.pagination-next` selection (`none` when the selector finds nothing, or the
list of matched anchors). -/
structure RecentDocE where
  rows : Option (List (Option (List Nat)))
  paginationNext : Option (List Unit)
deriving DecidableEq

def unimplementedB : List Nat := str2b "Unimplemented listing"

def recentB : List Nat := str2b "recent"

/-- `get_manga_list` from lib.rs: only the "recent" listing id is supported. -/
def get_manga_list (listingId : List Nat) (doc : RecentDocE) :
    Except (List Nat) MangaPageResultE :=
  if listingId = recentB then
    Except.ok
      { entries := (doc.rows.map fun rs => rs.filterMap rowToManga).getD []
        has_next_page := (doc.paginationNext.map fun els => !els.isEmpty).getD false }
  else Except.error unimplementedB

end Madokami

namespace Madokami

lemma rowToManga_mem {rows : List (Option (List Nat))} {mg : MangaE}
    (h : mg ∈ rows.filterMap rowToManga) : some mg.key ∈ rows ∧ mg.title ≠ [] := by
  rw [List.mem_filterMap] at h
  obtain ⟨href, hmem, heq⟩ := h
  unfold rowToManga at heq
  cases href with
  | none => simp at heq
  | some key =>
    rw [Option.some_bind'] at heq
    by_cases ht : (derive_from_path key).1.isEmpty = true
    · rw [if_pos ht] at heq
      simp at heq
    · rw [if_neg ht] at heq
      cases heq
      refine ⟨hmem, ?_⟩
      simpa [List.isEmpty_iff] using ht

lemma mapMOpt_mem {f : α → Option β} {l : List α} {out : List β}
    (h : mapMOpt f l = some out) : ∀ x ∈ out, ∃ a ∈ l, f a = some x := by
  induction l generalizing out with
  | nil =>
    cases h
    intro x hx
    simp at hx
  | cons a rest ih =>
    unfold mapMOpt at h
    cases hfa : f a with
    | none => rw [hfa] at h; simp at h
    | some b =>
      rw [hfa] at h
      cases hrest : mapMOpt f rest with
      | none => rw [hrest] at h; simp at h
      | some bs =>
        rw [hrest] at h
        simp only [Option.map_some', Option.bind_some] at h
        cases h
        intro x hx
        rcases List.mem_cons.mp hx with hxb | hxbs
        · exact ⟨a, List.mem_cons_self a rest, hxb ▸ hfa⟩
        · obtain ⟨a', ha', hfa'⟩ := ih hrest x hxbs
          exact ⟨a', List.mem_cons_of_mem a ha', hfa'⟩

end Madokami

namespace Madokami

/-- C2 fails as stated: a search row whose anchor `href` is "foo" (bytes
[102, 111, 111]) is kept — its derived title "foo" is non-empty — and its
returned key is "foo", which does not begin with '/': search and listing keys
are the raw `href`, not normalized. -/
theorem c2_counterexample :
    ((get_search_manga_list (some [some [102, 111, 111]])).entries.all
      fun mg => mg.key.head? == some 47) = false := by
  decide

/-- C2 amended: chapter keys produced by `get_manga_update` always begin with
'/' (they go through `normalize_chapter_href`, whose result always begins with
'/'), and a deep-link key begins with '/' whenever the URL extends the origin
with '/'; search and listing keys are returned exactly as the row's `href`
attribute; every Manga returned from search or listing has a non-empty title. -/
theorem c2_amended_keys_and_titles :
    (∀ raw, (normalize_chapter_href raw).head? = some 47) ∧
    (∀ rows mg, mg ∈ (get_search_manga_list rows).entries →
      some mg.key ∈ rows.getD [] ∧ mg.title ≠ []) ∧
    (∀ lid doc res mg, get_manga_list lid doc = Except.ok res → mg ∈ res.entries →
      some mg.key ∈ doc.rows.getD [] ∧ mg.title ≠ []) ∧
    (∀ manga doc nd res ch, get_manga_update manga doc nd true = some res →
      ch ∈ res.chapters.getD [] → ch.key.head? = some 47) ∧
    (∀ url res, handle_deep_link url = some res →
      (baseUrlB ++ [47]).isPrefixOf url = true → res.key.head? = some 47) := by
  have hnorm : ∀ raw, (normalize_chapter_href raw).head? = some 47 := by
    intro raw
    unfold normalize_chapter_href
    by_cases hr : raw.head? = some 47
    · rw [if_pos hr]
      exact hr
    · rw [if_neg hr]
      rfl
  refine ⟨hnorm, ?_, ?_, ?_, ?_⟩
  · intro rows mg hmg
    cases rows with
    | none => simp [get_search_manga_list] at hmg
    | some rs =>
      simp only [get_search_manga_list, Option.map_some', Option.getD_some] at hmg
      exact rowToManga_mem hmg
  · intro lid doc res mg hres hmg
    unfold get_manga_list at hres
    by_cases hid : lid = recentB
    · rw [if_pos hid] at hres
      cases hres
      cases hrows : doc.rows with
      | none => rw [hrows] at hmg; simp at hmg
      | some rs =>
        rw [hrows] at hmg
        simp only [Option.map_some', Option.getD_some] at hmg
        simp only [Option.getD_some]
        exact rowToManga_mem hmg
    · rw [if_neg hid] at hres
      cases hres
  · intro manga doc nd res ch hres hch
    simp only [get_manga_update, if_true] at hres
    split at hres
    · cases hres
      simp at hch
    · rename_i rows hrows
      cases hcs : mapMOpt rowChapter rows with
      | none => rw [hcs] at hres; simp at hres
      | some cs =>
        rw [hcs] at hres
        simp only [Option.map_some'] at hres
        cases hres
        simp only [Option.getD_some, List.mem_reverse, List.mem_filterMap] at hch
        obtain ⟨oc, hoc, hid⟩ := hch
        obtain ⟨r, _, hrc⟩ := mapMOpt_mem hcs oc hoc
        unfold rowChapter at hrc
        cases hhref : r.href with
        | none =>
          rw [hhref] at hrc
          cases hrc
          simp at hid
        | some href =>
          rw [hhref] at hrc
          cases hdate : parse_chapter_date (r.dateText.getD []) with
          | none => rw [hdate] at hrc; cases hrc
          | some dt =>
            rw [hdate] at hrc
            cases hrc
            cases hid
            exact hnorm href
  · intro url res h hpre
    have hp : (baseUrlB ++ [47]) <+: url := List.isPrefixOf_iff_prefix.mp hpre
    obtain ⟨t, rfl⟩ := hp
    have hb : baseUrlB.isPrefixOf ((baseUrlB ++ [47]) ++ t) = true := by
      apply List.isPrefixOf_iff_prefix.mpr
      rw [List.append_assoc]
      exact List.prefix_append _ _
    have hkey : ((baseUrlB ++ [47]) ++ t).drop baseUrlB.length = 47 :: t := by
      rw [List.append_assoc, List.drop_left]
      rfl
    simp only [handle_deep_link, hb, if_true, hkey] at h
    split at h <;> (cases h; rfl)

/-- Witness for the amended C2: a row with href "/a" yields an entry with that
key and the non-empty title "a". -/
theorem c2_witness :
    some ({ key := [47, 97], title := [97], description := some [97] } : MangaE).key ∈
      (some [some [47, 97]] : Option (List (Option (List Nat)))).getD [] ∧
    ({ key := [47, 97], title := [97], description := some [97] } : MangaE).title ≠ [] :=
  (c2_amended_keys_and_titles.2.1 (some [some [47, 97]])
    { key := [47, 97], title := [97], description := some [97] } (by decide))

end Madokami

namespace Madokami

/-- C8: `get_page_list` never errors; a missing reader element, a missing or
empty `data-path`/`data-files` attribute, or malformed file-list JSON all
yield `Ok` with an empty page list, and well-formed JSON yields one page per
filename in file-list order. -/
theorem c8_page_list_degradation
    (reader : Option (Option (List Nat) × Option (List Nat)))
    (decodeJson : List Nat → Option (List (List Nat))) :
    (reader = none → get_page_list reader decodeJson = Except.ok []) ∧
    (∀ dp fj, reader = some (dp, fj) →
      ((dp.getD []).isEmpty || (fj.getD []).isEmpty) = true →
      get_page_list reader decodeJson = Except.ok []) ∧
    (∀ dp fj, reader = some (some dp, some fj) → dp ≠ [] → fj ≠ [] →
      decodeJson fj = none → get_page_list reader decodeJson = Except.ok []) ∧
    (∀ dp fj files, reader = some (some dp, some fj) → dp ≠ [] → fj ≠ [] →
      decodeJson fj = some files →
      get_page_list reader decodeJson =
        Except.ok (files.map fun f => { content := pageUrl dp f })) := by
  refine ⟨fun h => ?_, fun dp fj h hempty => ?_, fun dp fj h hdp hfj hdec => ?_,
    fun dp fj files h hdp hfj hdec => ?_⟩
  · subst h
    rfl
  · subst h
    simp only [get_page_list, Option.map_some', Option.getD_some]
    rw [if_pos hempty]
  · subst h
    simp only [get_page_list, Option.map_some', Option.getD_some]
    rw [if_neg (by simp [List.isEmpty_eq_false.mpr hdp, List.isEmpty_eq_false.mpr hfj]),
      hdec]
    rfl
  · subst h
    simp only [get_page_list, Option.map_some', Option.getD_some]
    rw [if_neg (by simp [List.isEmpty_eq_false.mpr hdp, List.isEmpty_eq_false.mpr hfj]),
      hdec]
    rfl

/-- Witness for C8: a present reader element whose file list decodes to two
filenames yields exactly those two pages, in order. -/
theorem c8_witness :
    get_page_list (some (some [112], some [91, 93]))
      (fun _ => some [[97], [98]]) =
      Except.ok [{ content := pageUrl [112] [97] }, { content := pageUrl [112] [98] }] :=
  (c8_page_list_degradation (some (some [112], some [91, 93]))
      (fun _ => some [[97], [98]])).2.2.2 [112] [91, 93] [[97], [98]]
    rfl (by decide) (by decide) rfl

end Madokami

namespace Madokami

/-- C9: any listing id other than "recent" (e.g. "popular") yields the
"Unimplemented listing" failure; "recent" yields a listing result whose
`has_next_page` is true iff the pagination-next selector matched at least one
anchor. -/
theorem c9_listing_dispatch (listingId : List Nat) (doc : RecentDocE) :
    (listingId ≠ recentB → get_manga_list listingId doc = Except.error unimplementedB) ∧
    (∃ res, get_manga_list recentB doc = Except.ok res ∧
      (res.has_next_page = true ↔ doc.paginationNext.getD [] ≠ [])) := by
  constructor
  · intro hid
    unfold get_manga_list
    rw [if_neg hid]
  · refine ⟨_, by unfold get_manga_list; rw [if_pos rfl], ?_⟩
    cases hpn : doc.paginationNext with
    | none => simp
    | some els =>
      simp [List.isEmpty_eq_false, List.isEmpty_iff]

/-- Witness for C9: listing id "popular" yields the unimplemented failure. -/
theorem c9_witness :
    get_manga_list (str2b "popular") { rows := none, paginationNext := none } =
      Except.error unimplementedB :=
  (c9_listing_dispatch (str2b "popular") { rows := none, paginationNext := none }).1
    (by decide)

end Madokami

namespace Madokami

/-- The chapter built from one kept row (6th-column anchor present), with the
date read off totally; agrees with `rowChapter` whenever the date text does
not make `parse_chapter_date` panic. -/
def chapterOfRow (r : ChapterRowE) : Option ChapterE :=
  r.href.map fun href =>
    { key := normalize_chapter_href href, title := r.titleText,
      dateUploaded := some ((parse_chapter_date (r.dateText.getD [])).getD 0) }

lemma rowChapter_eq_of_isSome {r : ChapterRowE}
    (hr : (parse_chapter_date (r.dateText.getD [])).isSome = true) :
    rowChapter r = some (chapterOfRow r) := by
  unfold rowChapter chapterOfRow
  cases hhref : r.href with
  | none => rfl
  | some href =>
    cases hdate : parse_chapter_date (r.dateText.getD []) with
    | none => rw [hdate] at hr; simp at hr
    | some dt => simp [hdate]

lemma mapMOpt_eq_map {f : α → Option β} {g : α → β} {l : List α}
    (h : ∀ a ∈ l, f a = some (g a)) : mapMOpt f l = some (l.map g) := by
  induction l with
  | nil => rfl
  | cons a rest ih =>
    rw [mapMOpt, h a (List.mem_cons_self a rest),
      ih fun x hx => h x (List.mem_cons_of_mem _ hx)]
    rfl

/-- The example document of the claim: rows scraped in page order
Ch.5, Ch.4, Ch.3 (newest first, as the origin site lists them). -/
def chapterExampleDoc : DetailDocE :=
  { cover := none, titleText := none, authors := none, artists := none,
    synopsis := none, statusText := none, tags := none,
    chapterRows := some
      [ { href := some (str2b "/c5"), titleText := some (str2b "Ch.5"), dateText := none },
        { href := some (str2b "/c4"), titleText := some (str2b "Ch.4"), dateText := none },
        { href := some (str2b "/c3"), titleText := some (str2b "Ch.3"), dateText := none } ] }

/-- C6: with `needs_chapters` set, the returned chapter list is the reverse of
the scraped row order after dropping rows with no 6th-column anchor (stated
for rows whose date cells do not trigger the C1 slicing panic); in particular
rows scraped as [Ch.5, Ch.4, Ch.3] come back as [Ch.3, Ch.4, Ch.5]. -/
theorem c6_chapter_order_reversed (manga : MangaE) (doc : DetailDocE) (nd : Bool)
    (rows : List ChapterRowE) (hrows : doc.chapterRows = some rows)
    (hdates : ∀ r ∈ rows, (parse_chapter_date (r.dateText.getD [])).isSome = true) :
    (∃ res, get_manga_update manga doc nd true = some res ∧
      res.chapters = some ((rows.filterMap chapterOfRow).reverse)) ∧
    (get_manga_update { key := [], title := [] } chapterExampleDoc false true).map
        (fun res => (res.chapters.getD []).map ChapterE.title) =
      some [some (str2b "Ch.3"), some (str2b "Ch.4"), some (str2b "Ch.5")] := by
  constructor
  · have hmap : mapMOpt rowChapter rows = some (rows.map chapterOfRow) :=
      mapMOpt_eq_map fun r hr => rowChapter_eq_of_isSome (hdates r hr)
    refine ⟨{ (if nd then applyDetails manga doc else manga) with
        chapters := some ((rows.filterMap chapterOfRow).reverse) }, ?_, rfl⟩
    simp only [get_manga_update, hrows, hmap, Option.map_some', List.filterMap_map,
      Function.id_comp, if_true]
  · decide

/-- Witness for C6 at the concrete three-row example document. -/
theorem c6_witness :
    ∃ res, get_manga_update { key := [], title := [] } chapterExampleDoc false true =
        some res ∧
      res.chapters = some
        (((chapterExampleDoc.chapterRows.getD []).filterMap chapterOfRow).reverse) :=
  (c6_chapter_order_reversed { key := [], title := [] } chapterExampleDoc false
    (chapterExampleDoc.chapterRows.getD []) rfl (by decide)).1

end Madokami

namespace Madokami

lemma applyDetails_chapters (m : MangaE) (doc : DetailDocE) :
    (applyDetails m doc).chapters = m.chapters := by
  simp only [applyDetails]
  repeat' split
  all_goals rfl

lemma applyDetails_key (m : MangaE) (doc : DetailDocE) :
    (applyDetails m doc).key = m.key := by
  simp only [applyDetails]
  repeat' split
  all_goals rfl

/-- C10: `get_manga_update` only writes the fields its flags request: with
`needs_details` false the detail fields are returned unchanged, with
`needs_chapters` false the chapters field is returned unchanged, and with
both flags false the input Manga is returned as is. -/
theorem c10_update_frame (manga : MangaE) (doc : DetailDocE) (nd nc : Bool) :
    (∀ res, get_manga_update manga doc false nc = some res →
      res.cover = manga.cover ∧ res.title = manga.title ∧
      res.description = manga.description ∧ res.authors = manga.authors ∧
      res.artists = manga.artists ∧ res.status = manga.status ∧
      res.tags = manga.tags) ∧
    (∀ res, get_manga_update manga doc nd false = some res →
      res.chapters = manga.chapters) ∧
    get_manga_update manga doc false false = some manga := by
  refine ⟨?_, ?_, rfl⟩
  · intro res hres
    simp only [get_manga_update, Bool.false_eq_true, if_false] at hres
    cases nc with
    | false =>
      cases hres
      exact ⟨rfl, rfl, rfl, rfl, rfl, rfl, rfl⟩
    | true =>
      rw [if_pos rfl] at hres
      split at hres
      · cases hres
        exact ⟨rfl, rfl, rfl, rfl, rfl, rfl, rfl⟩
      · rename_i rows hrows
        cases hcs : mapMOpt rowChapter rows with
        | none => rw [hcs] at hres; simp at hres
        | some cs =>
          rw [hcs] at hres
          simp only [Option.map_some'] at hres
          cases hres
          exact ⟨rfl, rfl, rfl, rfl, rfl, rfl, rfl⟩
  · intro res hres
    simp only [get_manga_update, Bool.false_eq_true, if_false] at hres
    cases hres
    cases nd with
    | false => rfl
    | true =>
      simp only [if_true]
      exact applyDetails_chapters manga doc

/-- Witness for C10: with both flags false a concrete Manga is returned
unchanged, and its chapters are untouched. -/
theorem c10_witness :
    get_manga_update { key := [47, 97], title := [120] } chapterExampleDoc false false =
        some { key := [47, 97], title := [120] } ∧
    ({ key := [47, 97], title := [120] } : MangaE).chapters =
      ({ key := [47, 97], title := [120] } : MangaE).chapters :=
  ⟨(c10_update_frame { key := [47, 97], title := [120] } chapterExampleDoc false false).2.2,
   (c10_update_frame { key := [47, 97], title := [120] } chapterExampleDoc false
      false).2.1 _
    (c10_update_frame { key := [47, 97], title := [120] } chapterExampleDoc false
      false).2.2⟩

end Madokami
